import Mathlib

/-!
Verification of the MA / VWMA breadth engine of the Breadth repository.

The pipeline under study lives in:
  src/indicators/moving_averages.py      (rolling MA / VWMA)
  src/indicators/ma_indicators.py        (breadth counts, oscillator, compression)
  src/indicators/ma_indicators_1.py      (three-state breadth with neutral band)
  src/indicators/ma_indicators_2.py      (trend-combination chains)
  src/junk/old_ma_indicators_2.py        (strict VWMA ladders)
  src/utils/zscore.py                    (robust rolling z-score)
  src/core/constants.py                  (window sets and group partition)

All numeric cells are pandas float64 values; we model them as `FV`: an exact
rational together with the IEEE-754 special values +inf, -inf and NaN
(rounding is not modelled; arithmetic is exact on the rationals).  A pandas
Series over the date axis is a function `ℕ → FV`.  Python dictionary keys and
column labels that matter to the claims are modelled as inductive types, and
a raised Python exception is an `Except` error value.
-/

namespace Breadth

/-- Model of one pandas float64 cell: a finite rational, +inf, -inf, or NaN. -/
inductive FV where
  | fin (q : ℚ)
  | pinf
  | ninf
  | nan
deriving DecidableEq, Repr

namespace FV

/-- True exactly on NaN (pandas null for float columns). -/
def isNan : FV → Bool
  | nan => true
  | _ => false

/-- True on finite values. -/
def isFin : FV → Bool
  | fin _ => true
  | _ => false

/-- Finite-or-NaN: the values that arise from finite inputs (no infinities). -/
def finOrNan : FV → Prop
  | fin _ => True
  | nan => True
  | _ => False

end FV

/-- IEEE negation. -/
def fneg : FV → FV
  | .fin q => .fin (-q)
  | .pinf => .ninf
  | .ninf => .pinf
  | .nan => .nan

/-- IEEE addition (exact on finite values). -/
def fadd : FV → FV → FV
  | .nan, _ => .nan
  | _, .nan => .nan
  | .fin a, .fin b => .fin (a + b)
  | .pinf, .ninf => .nan
  | .ninf, .pinf => .nan
  | .pinf, _ => .pinf
  | _, .pinf => .pinf
  | .ninf, _ => .ninf
  | _, .ninf => .ninf

/-- IEEE subtraction. -/
def fsub (a b : FV) : FV := fadd a (fneg b)

/-- IEEE multiplication (inf * 0 = NaN). -/
def fmul : FV → FV → FV
  | .nan, _ => .nan
  | _, .nan => .nan
  | .fin a, .fin b => .fin (a * b)
  | .pinf, .fin b => if b = 0 then .nan else if 0 < b then .pinf else .ninf
  | .ninf, .fin b => if b = 0 then .nan else if 0 < b then .ninf else .pinf
  | .fin a, .pinf => if a = 0 then .nan else if 0 < a then .pinf else .ninf
  | .fin a, .ninf => if a = 0 then .nan else if 0 < a then .ninf else .pinf
  | .pinf, .pinf => .pinf
  | .pinf, .ninf => .ninf
  | .ninf, .pinf => .ninf
  | .ninf, .ninf => .pinf

/-- IEEE division with an unsigned zero: 0/0 = NaN, x/0 = ±inf for x ≠ 0
(numpy/pandas float division never raises). -/
def fdiv : FV → FV → FV
  | .nan, _ => .nan
  | _, .nan => .nan
  | .fin a, .fin b =>
      if b = 0 then (if a = 0 then .nan else if 0 < a then .pinf else .ninf)
      else .fin (a / b)
  | .fin _, .pinf => .fin 0
  | .fin _, .ninf => .fin 0
  | .pinf, .fin b => if 0 ≤ b then .pinf else .ninf
  | .ninf, .fin b => if 0 ≤ b then .ninf else .pinf
  | .pinf, _ => .nan
  | .ninf, _ => .nan

/-- IEEE absolute value. -/
def fabs : FV → FV
  | .fin q => .fin |q|
  | .pinf => .pinf
  | .ninf => .pinf
  | .nan => .nan

/-- IEEE strict less-than: any comparison involving NaN is false. -/
def fltB : FV → FV → Bool
  | .nan, _ => false
  | _, .nan => false
  | .fin a, .fin b => a < b
  | .fin _, .pinf => true
  | .ninf, .fin _ => true
  | .ninf, .pinf => true
  | _, _ => false

/-- IEEE strict greater-than. -/
def fgtB (a b : FV) : Bool := fltB b a

/-- pandas `.clip(lo, hi)`: clamps finite values and infinities, keeps NaN. -/
def fclip (lo hi : ℚ) : FV → FV
  | .fin q => .fin (max lo (min hi q))
  | .pinf => .fin hi
  | .ninf => .fin lo
  | .nan => .nan

/-- pandas `.replace(0, np.nan)` on a float cell. -/
def replace0nan : FV → FV
  | .fin q => if q = 0 then .nan else .fin q
  | v => v

/-- pandas `.fillna(0.0)` on a float cell. -/
def fillna0 : FV → FV
  | .nan => .fin 0
  | v => v

/-- pandas `.replace([np.inf, -np.inf], np.nan)` on a float cell. -/
def replaceInfNan : FV → FV
  | .pinf => .nan
  | .ninf => .nan
  | v => v

/-- Sum of a list of cells (IEEE propagation: any NaN makes the sum NaN). -/
def fsum (l : List FV) : FV := l.foldr fadd (.fin 0)

/-- Drop the NaN entries (pandas skipna behaviour). -/
def deNan (l : List FV) : List FV := l.filter (fun v => !v.isNan)

/-- Total order used by pandas min/max/sort on non-NaN floats:
-inf < finite < +inf.  (NaN never reaches these after `deNan`; it is ordered
first so the functions stay total.) -/
def fleB : FV → FV → Bool
  | .nan, _ => true
  | _, .nan => false
  | .ninf, _ => true
  | _, .ninf => false
  | _, .pinf => true
  | .pinf, _ => false
  | .fin a, .fin b => a ≤ b

/-- Binary minimum in the `fleB` order. -/
def fmin2 (a b : FV) : FV := if fleB a b then a else b

/-- Binary maximum in the `fleB` order. -/
def fmax2 (a b : FV) : FV := if fleB a b then b else a

/-- Minimum of a list, NaN when empty (pandas min over an all-NaN row). -/
def fminList : List FV → FV
  | [] => .nan
  | v :: vs => vs.foldl fmin2 v

/-- Maximum of a list, NaN when empty. -/
def fmaxList : List FV → FV
  | [] => .nan
  | v :: vs => vs.foldl fmax2 v

/-- Insert into a `fleB`-sorted list. -/
def finsert (a : FV) : List FV → List FV
  | [] => [a]
  | b :: l => if fleB a b then a :: b :: l else b :: finsert a l

/-- Insertion sort in the `fleB` order (numpy sort used by rolling median). -/
def fsort : List FV → List FV
  | [] => []
  | a :: l => finsert a (fsort l)

/-- Median of a sorted list: middle element, or IEEE mean of the two middle
elements for an even count; NaN when empty. -/
def fmedianSorted (l : List FV) : FV :=
  let n := l.length
  if n = 0 then .nan
  else if n % 2 = 1 then l.getD (n / 2) .nan
  else fdiv (fadd (l.getD (n / 2 - 1) .nan) (l.getD (n / 2) .nan)) (.fin 2)

/-!  Rolling windows over the date axis (dates are `ℕ`, one row per day). -/

/-- The trailing window of width `w` ending at date `t` (only used with
`w ≤ t + 1`): the dates `t + 1 - w, …, t` in order. -/
def win (s : ℕ → FV) (w t : ℕ) : List FV :=
  (List.range w).map fun i => s (t + 1 - w + i)

/-- The trailing window clamped at the start of history: the
`min w (t + 1)` dates ending at `t`. -/
def winC (s : ℕ → FV) (w t : ℕ) : List FV :=
  (List.range (min w (t + 1))).map fun i => s (t + 1 - min w (t + 1) + i)

/-- `s.rolling(window=w).sum()` with the default `min_periods = w`:
NaN for the first `w - 1` dates, and NaN propagates from any cell of the
window (fewer than `w` non-null values). -/
def rollSum (s : ℕ → FV) (w t : ℕ) : FV :=
  if t + 1 < w then .nan else fsum (win s w t)

/-- `s.rolling(window=w).mean()` with the default `min_periods = w`. -/
def rollMean (s : ℕ → FV) (w t : ℕ) : FV :=
  fdiv (rollSum s w t) (.fin w)

/-- `s.rolling(window=w, min_periods=1).min()`: minimum of the non-null
values of the clamped window, NaN when all are null. -/
def rollMin1 (s : ℕ → FV) (w t : ℕ) : FV :=
  fminList (deNan (winC s w t))

/-- `s.rolling(window=w, min_periods=1).max()`. -/
def rollMax1 (s : ℕ → FV) (w t : ℕ) : FV :=
  fmaxList (deNan (winC s w t))

/-- `s.rolling(window=w, min_periods=1).mean()`: mean of the non-null values
of the clamped window (used for breadth smoothing). -/
def rollMean1 (s : ℕ → FV) (w t : ℕ) : FV :=
  let l := deNan (winC s w t)
  if l.isEmpty then .nan else fdiv (fsum l) (.fin l.length)

/-- `s.rolling(window=w, min_periods=m).median()`: median of the non-null
values of the clamped window, NaN when fewer than `m` of them. -/
def rollMedian (s : ℕ → FV) (w m t : ℕ) : FV :=
  let l := deNan (winC s w t)
  if l.length < m then .nan else fmedianSorted (fsort l)

/-!  Constants from src/core/constants.py. -/

/-- Keys of the `ma_groups` dictionary, together with the key `medium` that
src/junk/old_ma_indicators_2.py looks up (`ma_groups["medium"]`). -/
inductive GroupKey where
  | short
  | mid
  | long
  | medium
deriving DecidableEq, Repr

/-- One entry of `ma_groups` (the plotting-only `color`/`port` string fields
are omitted; only `periods` is read by the numeric pipeline). -/
structure MAGroup where
  periods : List ℕ
deriving DecidableEq, Repr

/-- `ma_groups` from src/core/constants.py: keys `short`, `mid`, `long`. -/
def maGroups : List (GroupKey × MAGroup) :=
  [(.short, ⟨[5, 12, 25]⟩), (.mid, ⟨[40, 80]⟩), (.long, ⟨[50, 100, 200]⟩)]

/-- Python `dict[key]` access: `some` the value or `none` (KeyError). -/
def dictGet {κ α : Type} [DecidableEq κ] (d : List (κ × α)) (k : κ) : Option α :=
  match d.find? (fun e => e.1 = k) with
  | some e => some e.2
  | none => none

/-- `mas_list` from src/core/constants.py: the sorted union of the group
periods, `[5, 12, 25, 40, 50, 80, 100, 200]`. -/
def masList : List ℕ := [5, 12, 25, 40, 50, 80, 100, 200]

/-!  MovingAverageEngine: src/indicators/moving_averages.py `calculate_mas`
and the identical rolling formulas of
src/indicators/ma_indicators.py `calculate_idx_and_comp_ma_vwma`. -/

/-- `MA{w}` column: `close.rolling(w).mean()`. -/
def maSeries (close : ℕ → FV) (w : ℕ) : ℕ → FV :=
  fun t => rollMean close w t

/-- `VWMA{w}` column:
`(close * volume).rolling(w).sum() / volume.rolling(w).sum()`. -/
def vwmaSeries (close vol : ℕ → FV) (w : ℕ) : ℕ → FV :=
  fun t => fdiv (rollSum (fun u => fmul (close u) (vol u)) w t) (rollSum vol w t)

/-!  BreadthAggregator: src/indicators/ma_indicators_1.py
`calculate_tickers_over_under_mas` (three-state with neutral band).  For one
window `w` the function reads the per-ticker price column and the
corresponding `MA{w}` (or `VWMA{w}`) column; we model the panel for one
window as a list of `(close, indicator)` pairs of date series, one pair per
ticker column.  `numTickers` is the static `plot_setup.num_tickers`. -/

/-- The `eps = 1e-9` guard used in the percentage difference. -/
def epsB : ℚ := 1 / 1000000000

/-- `pct_diff = (close - ma) / (close + eps)` for one ticker at one date. -/
def pctDiff (close ind : ℕ → FV) (t : ℕ) : FV :=
  fdiv (fsub (close t) (ind t)) (fadd (close t) (.fin epsB))

/-- Three-state classification with neutral band: `1` where
`pct_diff > band`, `-1` where `pct_diff < -band`, else `0` — the `fillna(0)`
of the source sends NaN rows (null price or null MA) to `0` as well. -/
def classify3 (band : ℚ) (d : FV) : Int :=
  if fgtB d (.fin band) then 1 else if fltB d (.fin (-band)) then -1 else 0

/-- `num_above`: tickers classified `1` on date `t`. -/
def numAbove (panel : List ((ℕ → FV) × (ℕ → FV))) (band : ℚ) (t : ℕ) : ℕ :=
  panel.countP (fun p => classify3 band (pctDiff p.1 p.2 t) == 1)

/-- `num_below`: tickers classified `-1` on date `t`. -/
def numBelow (panel : List ((ℕ → FV) × (ℕ → FV))) (band : ℚ) (t : ℕ) : ℕ :=
  panel.countP (fun p => classify3 band (pctDiff p.1 p.2 t) == -1)

/-- `num_neutral`: tickers classified `0` on date `t`. -/
def numNeutral (panel : List ((ℕ → FV) × (ℕ → FV))) (band : ℚ) (t : ℕ) : ℕ :=
  panel.countP (fun p => classify3 band (pctDiff p.1 p.2 t) == 0)

/-- Active tickers on date `t`: those with non-null price that day
(spec glossary; the closes are the first components of the panel). -/
def activeCount (panel : List ((ℕ → FV) × (ℕ → FV))) (t : ℕ) : ℕ :=
  panel.countP (fun p => !(p.1 t).isNan)

/-- `pct_above = num_above / num_tickers * 100.0` — the denominator is the
static `plot_setup.num_tickers`, not a per-date count. -/
def rawPctAbove (panel : List ((ℕ → FV) × (ℕ → FV))) (band : ℚ)
    (numTickers : ℕ) (t : ℕ) : FV :=
  fmul (fdiv (.fin (numAbove panel band t)) (.fin numTickers)) (.fin 100)

/-- `pct_below = num_below / num_tickers * 100.0`. -/
def rawPctBelow (panel : List ((ℕ → FV) × (ℕ → FV))) (band : ℚ)
    (numTickers : ℕ) (t : ℕ) : FV :=
  fmul (fdiv (.fin (numBelow panel band t)) (.fin numTickers)) (.fin 100)

/-- Optional smoothing: `if smooth_window and smooth_window > 1:` apply a
trailing `rolling(smooth_window, min_periods=1).mean()` to the series. -/
def smoothIf (sw : ℕ) (s : ℕ → FV) : ℕ → FV :=
  if 1 < sw then fun t => rollMean1 s sw t else s

/-- The `%>` output series of one window: raw percentage then smoothing. -/
def pctAboveOut (panel : List ((ℕ → FV) × (ℕ → FV))) (band : ℚ)
    (numTickers sw : ℕ) : ℕ → FV :=
  smoothIf sw (rawPctAbove panel band numTickers)

/-!  Two-state breadth of src/indicators/ma_indicators.py
`calculate_tickers_over_under_mas`: `(close > ma).astype(int) -
(close < ma).astype(int)`, counted and divided by the same static
`num_tickers`. -/

/-- Two-state comparison value: `1` above, `-1` below, `0` otherwise
(equality, or a NaN on either side). -/
def classify2 (c m : FV) : Int :=
  (if fgtB c m then 1 else 0) - (if fltB c m then 1 else 0)

/-- `number_tickers_above_mas` for one window at one date. -/
def numAbove2 (panel : List ((ℕ → FV) × (ℕ → FV))) (t : ℕ) : ℕ :=
  panel.countP (fun p => classify2 (p.1 t) (p.2 t) == 1)

/-- `percent_tickers_above_mas = (number_tickers_above_mas / num_tickers) * 100`. -/
def rawPctAbove2 (panel : List ((ℕ → FV) × (ℕ → FV))) (numTickers t : ℕ) : FV :=
  fmul (fdiv (.fin (numAbove2 panel t)) (.fin numTickers)) (.fin 100)

/-!  CompressionAggregator: src/indicators/compression.py
`calculate_compression` and src/indicators/ma_indicators.py
`calculate_compressao_dispersao`: per-ticker relative deviation
`(close - MA)/close`, summed per date with and without absolute value
(`DataFrame.sum(axis=1)` skips NaN and sums an all-NaN row to 0.0). -/

/-- `diff = (close - ma) / close` for one ticker at one date. -/
def compDiff (close ind : ℕ → FV) (t : ℕ) : FV :=
  fdiv (fsub (close t) (ind t)) (close t)

/-- Row sum with pandas skipna semantics. -/
def rowSumNa (l : List FV) : FV := fsum (deNan l)

/-- `Abs_C-MA{w}[t] = diff.abs().sum(axis=1)`. -/
def absComp (panel : List ((ℕ → FV) × (ℕ → FV))) (t : ℕ) : FV :=
  rowSumNa (panel.map fun p => fabs (compDiff p.1 p.2 t))

/-- `Dir_C-MA{w}[t] = diff.sum(axis=1)`. -/
def dirComp (panel : List ((ℕ → FV) × (ℕ → FV))) (t : ℕ) : FV :=
  rowSumNa (panel.map fun p => compDiff p.1 p.2 t)

/-!  LadderAggregator: src/junk/old_ma_indicators_2.py.
`_strict_ladder_condition` takes the price frame and a non-empty list of
VWMA frames; per ticker it is `price > v0` conjoined with `prev > curr` over
consecutive VWMA pairs.  We abstract a fixed date: a ticker is a value of an
arbitrary type `α`, `adj` gives its price and each chain element gives its
VWMA value. -/

/-- Consecutive strict-descent check `v0 > v1 > …` over a list of cells. -/
def chainDesc : List FV → Bool
  | [] => true
  | [_] => true
  | a :: b :: l => fgtB a b && chainDesc (b :: l)

/-- `_strict_ladder_condition` for one ticker: `price > v0` and the strict
descent over `v0 :: rest`. -/
def strictLadder (price v0 : FV) (rest : List FV) : Bool :=
  fgtB price v0 && chainDesc (v0 :: rest)

/-- Number of tickers satisfying the strict ladder on the date. -/
def ladderCount {α : Type} (tks : List α) (adj : α → FV)
    (v0 : α → FV) (rest : List (α → FV)) : ℕ :=
  tks.countP (fun a => strictLadder (adj a) (v0 a) (rest.map (fun v => v a)))

/-- `cond.sum(axis=1) / n_tickers * 100.0` where `n_tickers` is the number
of ticker columns of the price frame. -/
def ladderPct {α : Type} (tks : List α) (adj : α → FV)
    (v0 : α → FV) (rest : List (α → FV)) : FV :=
  fmul (fdiv (.fin (ladderCount tks adj v0 rest)) (.fin tks.length)) (.fin 100)

/-!  OscillatorNormalizer, minmax mode: src/indicators/ma_indicators.py
`calculate_ma_vwma_max_min` (lines 116-125) and the identical block of
src/indicators/ma_indicators_1.py `calc_conver_diver_oscillator`:
rolling min/max with `min_periods=1`, denominator `.replace(0, np.nan)`,
then `((x - roll_min) / denom).clip(0.0, 1.0).fillna(0.0)`. -/

/-- Minmax-mode oscillator of a raw series `x` with lookback `L` at date `t`. -/
def minmaxOsc (x : ℕ → FV) (L t : ℕ) : FV :=
  let rmin := rollMin1 x L t
  let rmax := rollMax1 x L t
  let denom := replace0nan (fsub rmax rmin)
  fillna0 (fclip 0 1 (fdiv (fsub (x t) rmin) denom))

/-!  OscillatorNormalizer, zscore mode: src/utils/zscore.py
`rolling_robust_zscore`.  The mode strings `"swing"`, `"longterm"`,
`"anomalies"` of the default `score_params` dictionary are modelled as an
inductive key type. -/

/-- Modes of the default `score_params` dictionary. -/
inductive ZMode where
  | swing
  | longterm
  | anomalies
deriving DecidableEq, Repr

/-- One `score_params` entry: window, min_periods and optional clip bound. -/
structure ZParams where
  window : ℕ
  minPeriods : ℕ
  clip : Option ℚ
deriving DecidableEq, Repr

/-- The default parameter sets:
swing (20, 10, 3.5), longterm (50, 30, 4.0), anomalies (30, 15, None). -/
def scoreParams : ZMode → ZParams
  | .swing => ⟨20, 10, some (7 / 2)⟩
  | .longterm => ⟨50, 30, some 4⟩
  | .anomalies => ⟨30, 15, none⟩

/-- `roll_median = series.rolling(window, min_periods).median()`. -/
def zRollMedian (s : ℕ → FV) (p : ZParams) : ℕ → FV :=
  fun u => rollMedian s p.window p.minPeriods u

/-- `mad = (series - roll_median).abs().rolling(window, min_periods).median()`. -/
def zMad (s : ℕ → FV) (p : ZParams) : ℕ → FV :=
  fun u => rollMedian (fun v => fabs (fsub (s v) (zRollMedian s p v)))
    p.window p.minPeriods u

/-- The constant 1.4826 that makes MAD comparable to a standard deviation. -/
def madScale : ℚ := 14826 / 10000

/-- `robust_std = (mad * 1.4826).replace(0, np.nan)`. -/
def zRobustStd (s : ℕ → FV) (p : ZParams) : ℕ → FV :=
  fun u => replace0nan (fmul (zMad s p u) (.fin madScale))

/-- `rolling_robust_zscore`:
`z = (series - roll_median) / robust_std`, then
`z.replace([inf, -inf], nan).fillna(0.0)`, then the optional clip. -/
def robustZscore (s : ℕ → FV) (p : ZParams) (u : ℕ) : FV :=
  let z1 := fillna0 (replaceInfNan
    (fdiv (fsub (s u) (zRollMedian s p u)) (zRobustStd s p u)))
  match p.clip with
  | some c => fclip (-c) c z1
  | none => z1

/-!  Trend combinations: src/indicators/ma_indicators_2.py
`calculate_trend_combinations` with the `trend_combinations` dictionary of
src/core/constants.py.  The chain entries are column labels such as
`"AboveBelowMA5"`; the MA result frame only carries labels
`"Adj Close"`, `"Volume"`, `"MA{w}"`, `"VWMA{w}"`.  Labels are modelled as
an inductive type. -/

/-- Level-0 column labels of the ticker frame, plus the `AboveBelow*`
labels that `trend_combinations` refers to. -/
inductive ColLabel where
  | adjClose
  | volume
  | ma (w : ℕ)
  | vwma (w : ℕ)
  | aboveBelowMA (w : ℕ)
  | aboveBelowVWMA (w : ℕ)
deriving DecidableEq, Repr

/-- Keys of the `trend_combinations` dictionary (names like `">MA_5_12"`),
carrying the window list of the name. -/
inductive TrendKey where
  | aboveMA (ws : List ℕ)
  | aboveVWMA (ws : List ℕ)
  | belowMA (ws : List ℕ)
  | belowVWMA (ws : List ℕ)
deriving DecidableEq, Repr

/-- `trend_combinations` from src/core/constants.py, in dictionary order:
every chain refers to `AboveBelow*` columns. -/
def trendCombinations : List (TrendKey × List ColLabel) :=
  [ (.aboveMA [5], [.aboveBelowMA 5]),
    (.aboveMA [5, 12], [.aboveBelowMA 5, .aboveBelowMA 12]),
    (.aboveMA [5, 12, 25], [.aboveBelowMA 5, .aboveBelowMA 12, .aboveBelowMA 25]),
    (.aboveMA [40], [.aboveBelowMA 40]),
    (.aboveMA [40, 80], [.aboveBelowMA 40, .aboveBelowMA 80]),
    (.aboveMA [50], [.aboveBelowMA 50]),
    (.aboveMA [50, 100], [.aboveBelowMA 50, .aboveBelowMA 100]),
    (.aboveMA [50, 100, 200], [.aboveBelowMA 50, .aboveBelowMA 100, .aboveBelowMA 200]),
    (.aboveVWMA [5], [.aboveBelowVWMA 5]),
    (.aboveVWMA [5, 12], [.aboveBelowVWMA 5, .aboveBelowVWMA 12]),
    (.aboveVWMA [5, 12, 25], [.aboveBelowVWMA 5, .aboveBelowVWMA 12, .aboveBelowVWMA 25]),
    (.aboveVWMA [40], [.aboveBelowVWMA 40]),
    (.aboveVWMA [40, 80], [.aboveBelowVWMA 40, .aboveBelowVWMA 80]),
    (.aboveVWMA [50], [.aboveBelowVWMA 50]),
    (.aboveVWMA [50, 100], [.aboveBelowVWMA 50, .aboveBelowVWMA 100]),
    (.aboveVWMA [50, 100, 200], [.aboveBelowVWMA 50, .aboveBelowVWMA 100, .aboveBelowVWMA 200]),
    (.belowMA [5], [.aboveBelowMA 5]),
    (.belowMA [5, 12], [.aboveBelowMA 5, .aboveBelowMA 12]),
    (.belowMA [5, 12, 25], [.aboveBelowMA 5, .aboveBelowMA 12, .aboveBelowMA 25]),
    (.belowMA [40], [.aboveBelowMA 40]),
    (.belowMA [40, 80], [.aboveBelowMA 40, .aboveBelowMA 80]),
    (.belowMA [50], [.aboveBelowMA 50]),
    (.belowMA [50, 100], [.aboveBelowMA 50, .aboveBelowMA 100]),
    (.belowMA [50, 100, 200], [.aboveBelowMA 50, .aboveBelowMA 100, .aboveBelowMA 200]),
    (.belowVWMA [5], [.aboveBelowVWMA 5]),
    (.belowVWMA [5, 12], [.aboveBelowVWMA 5, .aboveBelowVWMA 12]),
    (.belowVWMA [5, 12, 25], [.aboveBelowVWMA 5, .aboveBelowVWMA 12, .aboveBelowVWMA 25]),
    (.belowVWMA [40], [.aboveBelowVWMA 40]),
    (.belowVWMA [40, 80], [.aboveBelowVWMA 40, .aboveBelowVWMA 80]),
    (.belowVWMA [50], [.aboveBelowVWMA 50]),
    (.belowVWMA [50, 100], [.aboveBelowVWMA 50, .aboveBelowVWMA 100]),
    (.belowVWMA [50, 100, 200], [.aboveBelowVWMA 50, .aboveBelowVWMA 100, .aboveBelowVWMA 200]) ]

/-- A raised Python exception of the trend/ladder aggregators. -/
inductive PyErr where
  | keyError (k : GroupKey)
  /-- `ValueError: No axis named 1 for object type Series` — raised by
  `mask.sum(axis=1)` when `mask` is still a Series.  Carries no window. -/
  | seriesSumNoAxis1
  /-- The configuration error demanded by the spec (never produced by the
  shipped code; declared so its absence can be stated). -/
  | configMissingWindow (c : ColLabel)
deriving DecidableEq, Repr

/-- The ticker frame as `calculate_trend_combinations` sees it: its level-0
labels and, per label and ticker, a date series.  `nTick` is the number of
ticker columns. -/
structure EodPanel where
  cols : List ColLabel
  nTick : ℕ
  val : ColLabel → ℕ → ℕ → FV

/-- One trend chain of `calculate_trend_combinations`.
If every chain label is a column, `mask` starts as a date-indexed boolean
Series and is conjoined with date×ticker frames: pandas aligns the Series
index against the ticker columns, so the result is an all-False frame and
every count is 0.  If some label is missing, the code prints a warning,
sets `mask` to a Series and breaks; the following `mask.sum(axis=1)` then
raises `ValueError: No axis named 1 for object type Series`. -/
def trendChainCounts (df : EodPanel) (chain : List ColLabel) :
    Except PyErr (ℕ → ℕ) :=
  if chain.all (fun c => df.cols.contains c) then .ok (fun _ => 0)
  else .error .seriesSumNoAxis1

/-- The chains of `calculate_trend_combinations` in dictionary order, each
yielding its count series and `(count / num_tickers) * 100` percentage
series; the first failing chain aborts the call with its exception. -/
def calcTrendGo (df : EodPanel) (numTickers : ℕ) :
    List (TrendKey × List ColLabel) →
      Except PyErr (List (TrendKey × (ℕ → ℕ) × (ℕ → FV)))
  | [] => .ok []
  | e :: rest => do
      let cnt ← trendChainCounts df e.2
      let out ← calcTrendGo df numTickers rest
      pure ((e.1, cnt, fun t =>
        fmul (fdiv (.fin (cnt t)) (.fin numTickers)) (.fin 100)) :: out)

/-- `calculate_trend_combinations`. -/
def calcTrendCombinations (df : EodPanel) (numTickers : ℕ) :
    Except PyErr (List (TrendKey × (ℕ → ℕ) × (ℕ → FV))) :=
  calcTrendGo df numTickers trendCombinations

/-!  True VWMA ladders: src/junk/old_ma_indicators_2.py
`build_vwma_true_ladders`.  The input frame supplies the price of every
ticker column and a `VWMA{p}` frame per period; `n_tickers` is the number
of price columns.  The main ladder over the `mas_list` prefixes is built
first; then the function evaluates `ma_groups["medium"]`. -/

/-- The input of `build_vwma_true_ladders`. -/
structure VwmaPanel where
  nTick : ℕ
  adj : ℕ → ℕ → FV
  vwma : ℕ → ℕ → ℕ → FV

/-- Ladder percentage series of one rung list `ps` (non-empty prefixes are
the only call sites): tickers are column indices `0, …, nTick - 1`. -/
def vwmaLadderPct (df : VwmaPanel) (p0 : ℕ) (ps : List ℕ) : ℕ → FV :=
  fun t => ladderPct (List.range df.nTick) (fun i => df.adj i t)
    (fun i => df.vwma p0 i t) (ps.map (fun p i => df.vwma p i t))

/-- Prefix rungs of a period list, each tagged by its rung. -/
def ladderRungs (df : VwmaPanel) (p0 : ℕ) (ps : List ℕ) :
    List (List ℕ × (ℕ → FV)) :=
  (List.range (ps.length + 1)).map
    (fun i => (p0 :: ps.take i, vwmaLadderPct df p0 (ps.take i)))

/-- `build_vwma_true_ladders`: the main ladder over `mas_list`, then the
mini ladders of `ma_groups["medium"]` and `ma_groups["long"]`.  The lookup
`ma_groups["medium"]` raises `KeyError` under the shipped constants. -/
def buildVwmaTrueLadders (df : VwmaPanel) :
    Except PyErr (List (List ℕ × (ℕ → FV))) := do
  let mainRungs := ladderRungs df 5 [12, 25, 40, 50, 80, 100, 200]
  let g40 ← match dictGet maGroups .medium with
    | some g => pure g
    | none => .error (.keyError .medium)
  let mini40 ← match g40.periods with
    | p0 :: ps => pure (ladderRungs df p0 ps)
    | [] => pure []
  let g80 ← match dictGet maGroups .long with
    | some g => pure g
    | none => .error (.keyError .long)
  let mini80 ← match g80.periods with
    | p0 :: ps => pure (ladderRungs df p0 ps)
    | [] => pure []
  pure (mainRungs ++ mini40 ++ mini80)

/-!  Basic lemmas.  Batteries seals the rational-number arithmetic behind
`irreducible`; re-open it locally so that concrete instances evaluate. -/

attribute [local semireducible] Rat.add Rat.mul Rat.sub Rat.inv

/-- Division of finite cells with a non-zero denominator is exact. -/
theorem fdiv_fin_fin_ne (a b : ℚ) (hb : b ≠ 0) :
    fdiv (.fin a) (.fin b) = .fin (a / b) := by
  simp [fdiv, hb]

/-- `classify3` only takes the values 1, -1 and 0. -/
theorem classify3_cases (band : ℚ) (d : FV) :
    classify3 band d = 1 ∨ classify3 band d = -1 ∨ classify3 band d = 0 := by
  unfold classify3
  split
  · exact Or.inl rfl
  · split
    · exact Or.inr (Or.inl rfl)
    · exact Or.inr (Or.inr rfl)

/-- Example breadth panel: two ticker columns with constant series.  The
first ticker has price 10 above its MA value 5; the second has a null price
(never listed), so it is never active. -/
def panelEx : List ((ℕ → FV) × (ℕ → FV)) :=
  [(fun _ => .fin 10, fun _ => .fin 5), (fun _ => .nan, fun _ => .fin 5)]

/-- Claim C2 (counterexample): on the example panel the three-state counts
of `calculate_tickers_over_under_mas` sum to the full universe size 2, not
to the active ticker count 1 — a ticker with null price lands in the
neutral bucket through `fillna(0)`. -/
theorem breadth_partition_not_active :
    ¬ (numAbove panelEx (1 / 200) 0 + numBelow panelEx (1 / 200) 0 +
        numNeutral panelEx (1 / 200) 0 = activeCount panelEx 0) := by
  decide

/-- Claim C2 (amended): for every panel, date and neutral band, the
three-state classification of src/indicators/ma_indicators_1.py partitions
the full list of ticker columns: `NumAbove + NumBelow + NumNeutral` equals
the total universe size (null-price tickers count as neutral), not the
active ticker count. -/
theorem breadth_partition_total (panel : List ((ℕ → FV) × (ℕ → FV)))
    (band : ℚ) (t : ℕ) :
    numAbove panel band t + numBelow panel band t + numNeutral panel band t =
      panel.length := by
  induction panel with
  | nil => rfl
  | cons p l ih =>
    simp only [numAbove, numBelow, numNeutral, List.countP_cons,
      List.length_cons] at *
    rcases classify3_cases band (pctDiff p.1 p.2 t) with h | h | h <;>
      simp only [h] <;> simp <;> omega

/-- Claim C1 (counterexample): the smoothed `%>` output of
`calculate_tickers_over_under_mas` on the example panel (static
`num_tickers = 2`, default band 0.005 and smoothing window 3) is 50 on date
2, while dividing the per-date count by the active ticker count of that
date would give 100. -/
theorem pctAbove_not_active_denominator :
    pctAboveOut panelEx (1 / 200) 2 3 2 ≠
      .fin ((numAbove panelEx (1 / 200) 2 : ℚ) / (activeCount panelEx 2) * 100) := by
  decide

/-- Claim C1 (amended): the breadth percentages divide the per-date counts
by the static `plot_setup.num_tickers`, the same denominator on every date,
never by a per-date active ticker count: for a positive static count `N`,
`pct_above = num_above / N * 100` and `pct_below = num_below / N * 100`,
and two dates with equal counts get equal percentages regardless of how
their active ticker counts differ. -/
theorem pct_uses_static_denominator (panel : List ((ℕ → FV) × (ℕ → FV)))
    (band : ℚ) (N t t' : ℕ) (hN : 0 < N) :
    rawPctAbove panel band N t = .fin ((numAbove panel band t : ℚ) / N * 100) ∧
    rawPctBelow panel band N t = .fin ((numBelow panel band t : ℚ) / N * 100) ∧
    (numAbove panel band t = numAbove panel band t' →
      rawPctAbove panel band N t = rawPctAbove panel band N t') := by
  have hq : (N : ℚ) ≠ 0 := by exact_mod_cast hN.ne'
  refine ⟨?_, ?_, ?_⟩
  · rw [rawPctAbove, fdiv_fin_fin_ne _ _ hq]; rfl
  · rw [rawPctBelow, fdiv_fin_fin_ne _ _ hq]; rfl
  · intro h; rw [rawPctAbove, rawPctAbove, h]

/-- Witness for `pct_uses_static_denominator` at the example panel with
static count 2. -/
theorem pct_uses_static_denominator_witness :
    0 < 2 ∧
    (rawPctAbove panelEx (1 / 200) 2 0 =
      .fin ((numAbove panelEx (1 / 200) 0 : ℚ) / 2 * 100) ∧
    rawPctBelow panelEx (1 / 200) 2 0 =
      .fin ((numBelow panelEx (1 / 200) 0 : ℚ) / 2 * 100) ∧
    (numAbove panelEx (1 / 200) 0 = numAbove panelEx (1 / 200) 1 →
      rawPctAbove panelEx (1 / 200) 2 0 = rawPctAbove panelEx (1 / 200) 2 1)) :=
  ⟨by decide, pct_uses_static_denominator panelEx (1 / 200) 2 0 1 (by decide)⟩

/-- Claim C10: under the shipped constants, `build_vwma_true_ladders`
raises `KeyError: medium` for every input frame — `ma_groups` only has the
keys `short`, `mid` and `long` — so no mini-ladder output is ever
produced. -/
theorem buildVwmaTrueLadders_keyError (df : VwmaPanel) :
    buildVwmaTrueLadders df = .error (.keyError .medium) := rfl

/-- A chain that raises aborts `calculate_trend_combinations` at once. -/
theorem calcTrendGo_cons_error (df : EodPanel) (N : ℕ)
    (e : TrendKey × List ColLabel) (rest : List (TrendKey × List ColLabel))
    {x : PyErr} (he : trendChainCounts df e.2 = .error x) :
    calcTrendGo df N (e :: rest) = .error x := by
  simp only [calcTrendGo, he]
  rfl

/-- Claim C4 (counterexample): a concrete MA-result frame (standard price,
volume, MA and VWMA columns, so every `AboveBelow*` chain label is absent):
`calculate_trend_combinations` raises the pandas error
`ValueError: No axis named 1 for object type Series` — which is not the
configuration error naming the missing window that the spec demands. -/
def eodEx : EodPanel :=
  ⟨[.adjClose, .volume, .ma 5, .vwma 5, .ma 12, .vwma 12], 3, fun _ _ _ => .fin 1⟩

/-- Claim C4 (counterexample): see `eodEx`. -/
theorem trendCombinations_valueError_not_config :
    calcTrendCombinations eodEx 3 = .error .seriesSumNoAxis1 ∧
    PyErr.seriesSumNoAxis1 ≠ .configMissingWindow (.aboveBelowMA 5) :=
  ⟨rfl, by decide⟩

/-- Claim C4 (amended): whenever the first chain label `AboveBelowMA5` is
not a column of the frame (true of every MA result the pipeline builds),
`calculate_trend_combinations` fails — but with the pandas
`ValueError: No axis named 1 for object type Series` from `mask.sum(axis=1)`
(the missing window is only named in a printed warning), not with a
configuration error naming the window; no 0% placeholder is returned
because the call never returns. -/
theorem trendCombinations_missing_window_valueError (df : EodPanel) (N : ℕ)
    (h : df.cols.contains (ColLabel.aboveBelowMA 5) = false) :
    calcTrendCombinations df N = .error .seriesSumNoAxis1 := by
  have h1 : trendChainCounts df [ColLabel.aboveBelowMA 5] =
      .error .seriesSumNoAxis1 := by
    have h' : ColLabel.aboveBelowMA 5 ∉ df.cols := by simpa using h
    simp [trendChainCounts, h']
  have h2 : calcTrendCombinations df N =
      calcTrendGo df N ((TrendKey.aboveMA [5], [ColLabel.aboveBelowMA 5]) ::
        trendCombinations.tail) := rfl
  rw [h2, calcTrendGo_cons_error df N _ _ h1]

/-- Witness for `trendCombinations_missing_window_valueError` at `eodEx`. -/
theorem trendCombinations_missing_window_valueError_witness :
    eodEx.cols.contains (ColLabel.aboveBelowMA 5) = false ∧
    calcTrendCombinations eodEx 3 = .error .seriesSumNoAxis1 :=
  ⟨by decide, trendCombinations_missing_window_valueError eodEx 3 (by decide)⟩

/-!  Claim C3: ladder monotonicity. -/

/-- A strict-descent chain stays a strict-descent chain under truncation. -/
theorem chainDesc_take : ∀ (l : List FV) (n : ℕ),
    chainDesc l = true → chainDesc (l.take n) = true
  | [], _, _ => by simp [chainDesc]
  | [a], n, _ => by cases n <;> simp [chainDesc]
  | _ :: _ :: _, 0, _ => by simp [chainDesc]
  | _ :: _ :: _, 1, _ => by simp [chainDesc]
  | a :: b :: r, n + 2, h => by
      simp only [chainDesc, Bool.and_eq_true, List.take_succ_cons] at h ⊢
      exact ⟨h.1, chainDesc_take (b :: r) (n + 1) h.2⟩

/-- A ticker satisfying a ladder prefix satisfies every shorter prefix. -/
theorem strictLadder_take (p v0 : FV) (l : List FV) (k : ℕ)
    (h : strictLadder p v0 (l.take (k + 1)) = true) :
    strictLadder p v0 (l.take k) = true := by
  unfold strictLadder at h ⊢
  rw [Bool.and_eq_true] at h ⊢
  refine ⟨h.1, ?_⟩
  have h2 := chainDesc_take (v0 :: l.take (k + 1)) (k + 1) h.2
  simpa [List.take_take, Nat.min_def, Nat.le_of_lt_succ] using h2

/-- Lengthening the ladder prefix cannot increase the qualifying count. -/
theorem ladderCount_take_le {α : Type} (tks : List α) (adj v0 : α → FV)
    (rest : List (α → FV)) (k : ℕ) :
    ladderCount tks adj v0 (rest.take (k + 1)) ≤
      ladderCount tks adj v0 (rest.take k) := by
  apply List.countP_mono_left
  intro a _ h
  simp only [List.map_take] at h ⊢
  exact strictLadder_take _ _ _ _ h

/-- Claim C3: for every fixed date, every ladder built by the prefix scheme
of `build_vwma_true_ladders` (the main ladder over the full window list and
every group-scoped mini ladder are the instances `p0 :: ps.take k`), the
percentage of tickers satisfying the strict chain
`price > VWMA_{p0} > VWMA_{w1} > …` is monotonically non-increasing in the
prefix length. -/
theorem ladder_pct_monotone (df : VwmaPanel) (p0 : ℕ) (ps : List ℕ)
    (k t : ℕ) (h : 0 < df.nTick) :
    ∃ p q : ℚ,
      vwmaLadderPct df p0 (ps.take (k + 1)) t = .fin p ∧
      vwmaLadderPct df p0 (ps.take k) t = .fin q ∧ p ≤ q := by
  have hn : (0 : ℚ) < (List.range df.nTick).length := by
    simpa using (by exact_mod_cast h : (0 : ℚ) < df.nTick)
  have hne : ((List.range df.nTick).length : ℚ) ≠ 0 := ne_of_gt hn
  have hcnt : ladderCount (List.range df.nTick) (fun i => df.adj i t)
      (fun i => df.vwma p0 i t)
      ((ps.take (k + 1)).map (fun p i => df.vwma p i t)) ≤
      ladderCount (List.range df.nTick) (fun i => df.adj i t)
      (fun i => df.vwma p0 i t)
      ((ps.take k).map (fun p i => df.vwma p i t)) := by
    simpa only [List.map_take] using
      ladderCount_take_le (List.range df.nTick) (fun i => df.adj i t)
        (fun i => df.vwma p0 i t) (ps.map (fun p i => df.vwma p i t)) k
  refine ⟨(ladderCount (List.range df.nTick) (fun i => df.adj i t)
      (fun i => df.vwma p0 i t)
      ((ps.take (k + 1)).map (fun p i => df.vwma p i t)) : ℚ) /
      ((List.range df.nTick).length : ℚ) * 100,
    (ladderCount (List.range df.nTick) (fun i => df.adj i t)
      (fun i => df.vwma p0 i t)
      ((ps.take k).map (fun p i => df.vwma p i t)) : ℚ) /
      ((List.range df.nTick).length : ℚ) * 100, ?_, ?_, ?_⟩
  · rw [vwmaLadderPct, ladderPct, fdiv_fin_fin_ne _ _ hne]; rfl
  · rw [vwmaLadderPct, ladderPct, fdiv_fin_fin_ne _ _ hne]; rfl
  · have hq : (ladderCount (List.range df.nTick) (fun i => df.adj i t)
        (fun i => df.vwma p0 i t)
        ((ps.take (k + 1)).map (fun p i => df.vwma p i t)) : ℚ) ≤
        (ladderCount (List.range df.nTick) (fun i => df.adj i t)
        (fun i => df.vwma p0 i t)
        ((ps.take k).map (fun p i => df.vwma p i t)) : ℚ) := by
      exact_mod_cast hcnt
    have h100 : (0 : ℚ) ≤ 100 := by norm_num
    exact mul_le_mul_of_nonneg_right (by gcongr) h100

/-- Witness for `ladder_pct_monotone`: a one-ticker frame. -/
def vwmaPanelEx : VwmaPanel :=
  ⟨1, fun _ _ => .fin 10, fun p _ _ => .fin (100 - p)⟩

/-- Witness for `ladder_pct_monotone` at `vwmaPanelEx`, rung `[5, 12]`. -/
theorem ladder_pct_monotone_witness :
    0 < vwmaPanelEx.nTick ∧
    ∃ p q : ℚ,
      vwmaLadderPct vwmaPanelEx 5 ([12].take 1) 0 = .fin p ∧
      vwmaLadderPct vwmaPanelEx 5 ([12].take 0) 0 = .fin q ∧ p ≤ q :=
  ⟨by decide, ladder_pct_monotone vwmaPanelEx 5 [12] 0 0 (by decide)⟩

/-!  Claim C6: minmax oscillator boundedness. -/

/-- The final `clip(0,1).fillna(0)` stage always yields a finite value in
`[0, 1]`, whatever the division produced. -/
theorem fillna0_fclip01 (v : FV) :
    ∃ q : ℚ, fillna0 (fclip 0 1 v) = .fin q ∧ 0 ≤ q ∧ q ≤ 1 := by
  cases v with
  | fin q =>
      exact ⟨max 0 (min 1 q), rfl, le_max_left _ _,
        max_le (by norm_num) (min_le_left _ _)⟩
  | pinf => exact ⟨1, rfl, by norm_num, le_refl 1⟩
  | ninf => exact ⟨0, rfl, le_refl 0, by norm_num⟩
  | nan => exact ⟨0, rfl, le_refl 0, by norm_num⟩

/-- `x - x` is never a non-zero finite value, so the
`.replace(0, np.nan)` denominator of a zero-range date is NaN. -/
theorem replace0nan_fsub_self (v : FV) : replace0nan (fsub v v) = .nan := by
  cases v <;> simp [fsub, fadd, fneg, replace0nan]

/-- Division by a NaN denominator is NaN. -/
theorem fdiv_nan (a : FV) : fdiv a .nan = .nan := by cases a <;> rfl

/-- Claim C6: for every input series, lookback and date, the minmax-mode
oscillator `((x - roll_min)/(roll_max - roll_min)).clip(0,1).fillna(0)` is
a finite value in `[0, 1]` — never NaN or inf — and any date whose rolling
minimum equals its rolling maximum (zero range) yields exactly 0. -/
theorem minmaxOsc_bounded (x : ℕ → FV) (L t : ℕ) :
    (∃ q : ℚ, minmaxOsc x L t = .fin q ∧ 0 ≤ q ∧ q ≤ 1) ∧
    (rollMin1 x L t = rollMax1 x L t → minmaxOsc x L t = .fin 0) := by
  constructor
  · exact fillna0_fclip01 _
  · intro h
    simp only [minmaxOsc, h, replace0nan_fsub_self, fdiv_nan]
    rfl

/-- Witness for `minmaxOsc_bounded` on a flat series (zero rolling range):
the oscillator value is 0, not NaN. -/
theorem minmaxOsc_bounded_witness :
    rollMin1 (fun _ => .fin 3) 5 2 = rollMax1 (fun _ => .fin 3) 5 2 ∧
    minmaxOsc (fun _ => .fin 3) 5 2 = .fin 0 :=
  ⟨by decide, (minmaxOsc_bounded (fun _ => .fin 3) 5 2).2 (by decide)⟩

/-!  Claim C5: the VWMA formula and the zero-volume window. -/

/-- Summing finite cells is exact. -/
theorem fsum_map_fin {α : Type} (l : List α) (g : α → ℚ) :
    fsum (l.map (fun a => FV.fin (g a))) = .fin ((l.map g).sum) := by
  induction l with
  | nil => rfl
  | cons a l ih =>
      rw [List.map_cons, List.map_cons, List.sum_cons]
      show fadd (.fin (g a)) (fsum (l.map fun x => FV.fin (g x))) = _
      rw [ih]
      rfl

/-- A list of non-negative rationals summing to zero is all zero. -/
theorem list_sum_zero_of_nonneg {l : List ℚ} (h : ∀ x ∈ l, 0 ≤ x)
    (hs : l.sum = 0) : ∀ x ∈ l, x = 0 := by
  induction l with
  | nil => simp
  | cons a l ih =>
      have ha : 0 ≤ a := h a (by simp)
      have hl : 0 ≤ l.sum := List.sum_nonneg (fun x hx => h x (by simp [hx]))
      rw [List.sum_cons] at hs
      have ha0 : a = 0 := le_antisymm (by linarith) ha
      intro x hx
      rcases List.mem_cons.mp hx with rfl | hx
      · exact ha0
      · exact ih (fun y hy => h y (by simp [hy])) (by linarith) x hx

/-- The trailing window of a series that is finite on the window dates. -/
theorem win_map_fin (s : ℕ → FV) (c : ℕ → ℚ) (w t : ℕ) (hist : w ≤ t + 1)
    (hc : ∀ u, t + 1 - w ≤ u → u ≤ t → s u = .fin (c u)) :
    win s w t = (List.range w).map (fun i => FV.fin (c (t + 1 - w + i))) := by
  unfold win
  apply List.map_congr_left
  intro i hi
  have hiw : i < w := List.mem_range.mp hi
  refine hc _ (Nat.le_add_right _ _) ?_
  omega

/-- Claim C5: with a full history window, `VWMA{w}[t]` of `calculate_mas`
is exactly `sum(close*volume, trailing w) / sum(volume, trailing w)`
whenever the window volume sum is non-zero, and whenever the (non-negative)
volumes of the window sum to zero the result is NaN — the embedding is a
total function, so no division-by-zero exception can occur. -/
theorem vwma_formula_and_zero_volume (close vol : ℕ → FV) (w t : ℕ)
    (c v : ℕ → ℚ) (hist : w ≤ t + 1)
    (hc : ∀ u, t + 1 - w ≤ u → u ≤ t → close u = .fin (c u))
    (hv : ∀ u, t + 1 - w ≤ u → u ≤ t → vol u = .fin (v u)) :
    (((List.range w).map (fun i => v (t + 1 - w + i))).sum ≠ 0 →
      vwmaSeries close vol w t =
        .fin (((List.range w).map (fun i =>
            c (t + 1 - w + i) * v (t + 1 - w + i))).sum /
          ((List.range w).map (fun i => v (t + 1 - w + i))).sum)) ∧
    ((∀ u, t + 1 - w ≤ u → u ≤ t → 0 ≤ v u) →
      ((List.range w).map (fun i => v (t + 1 - w + i))).sum = 0 →
      vwmaSeries close vol w t = .nan) := by
  have hnot : ¬ t + 1 < w := by omega
  have hpv : ∀ u, t + 1 - w ≤ u → u ≤ t →
      (fun x => fmul (close x) (vol x)) u = .fin (c u * v u) := by
    intro u h1 h2
    simp only [hc u h1 h2, hv u h1 h2, fmul]
  have hsum2 : rollSum vol w t =
      .fin (((List.range w).map (fun i => v (t + 1 - w + i))).sum) := by
    rw [rollSum, if_neg hnot, win_map_fin vol v w t hist hv, fsum_map_fin]
  have hsum1 : rollSum (fun x => fmul (close x) (vol x)) w t =
      .fin (((List.range w).map (fun i =>
        c (t + 1 - w + i) * v (t + 1 - w + i))).sum) := by
    rw [rollSum, if_neg hnot,
      win_map_fin _ (fun u => c u * v u) w t hist hpv, fsum_map_fin]
  constructor
  · intro hne
    rw [vwmaSeries]
    rw [hsum1, hsum2, fdiv_fin_fin_ne _ _ hne]
  · intro hnn hzero
    have hall : ∀ i ∈ List.range w, v (t + 1 - w + i) = 0 := by
      intro i hi
      have := list_sum_zero_of_nonneg (l :=
        (List.range w).map (fun i => v (t + 1 - w + i)))
        (by
          intro x hx
          obtain ⟨j, hj, rfl⟩ := List.mem_map.mp hx
          have hjw : j < w := List.mem_range.mp hj
          exact hnn _ (Nat.le_add_right _ _) (by omega)) hzero
      exact this _ (List.mem_map_of_mem _ hi)
    have hz1 : ((List.range w).map (fun i =>
        c (t + 1 - w + i) * v (t + 1 - w + i))).sum = 0 := by
      apply List.sum_eq_zero
      intro x hx
      obtain ⟨j, hj, rfl⟩ := List.mem_map.mp hx
      rw [hall j hj, mul_zero]
    rw [vwmaSeries, hsum1, hsum2, hzero, hz1]
    simp [fdiv]

/-- Witness for `vwma_formula_and_zero_volume`: a two-day window.  On dates
0 and 1 the first series takes prices 8 and 12 with volumes 1 and 3
(`VWMA = (8 + 36)/4 = 11`); replacing the volumes by zeros makes the
result NaN. -/
theorem vwma_formula_and_zero_volume_witness :
    vwmaSeries (fun u => .fin (8 + 4 * u)) (fun u => .fin (1 + 2 * u)) 2 1 =
      .fin (((List.range 2).map (fun i =>
          ((8 : ℚ) + 4 * (1 + 1 - 2 + i)) * (1 + 2 * (1 + 1 - 2 + i)))).sum /
        ((List.range 2).map (fun i => ((1 : ℚ) + 2 * (1 + 1 - 2 + i)))).sum) ∧
    vwmaSeries (fun u => .fin (8 + 4 * u)) (fun _ => .fin 0) 2 1 = .nan := by
  constructor
  · exact (vwma_formula_and_zero_volume (fun u => .fin (8 + 4 * u))
      (fun u => .fin (1 + 2 * u)) 2 1 (fun u => 8 + 4 * u)
      (fun u => 1 + 2 * u) (by omega) (fun u _ _ => rfl) (fun u _ _ => rfl)).1
      (by decide)
  · exact (vwma_formula_and_zero_volume (fun u => .fin (8 + 4 * u))
      (fun _ => .fin 0) 2 1 (fun u => 8 + 4 * u) (fun _ => 0) (by omega)
      (fun u _ _ => rfl) (fun u _ _ => rfl)).2 (fun u _ _ => le_refl 0)
      (by decide)

/-!  Claim C8: the signed compression aggregate is bounded by the absolute
one. -/

/-- With a finite-or-null, non-zero price and a finite-or-null MA value the
per-ticker deviation `(close - ma)/close` is finite or null (no infinity). -/
theorem compDiff_fin_or_nan (c m : FV) (hc : c.finOrNan) (hm : m.finOrNan)
    (h0 : c ≠ .fin 0) :
    (∃ q : ℚ, fdiv (fsub c m) c = .fin q) ∨ fdiv (fsub c m) c = .nan := by
  cases c with
  | fin a =>
      have ha : a ≠ 0 := fun h => h0 (by rw [h])
      cases m with
      | fin b => exact Or.inl ⟨(a + -b) / a, by simp [fsub, fadd, fneg, fdiv, ha]⟩
      | nan => exact Or.inr (by simp [fsub, fadd, fneg, fdiv])
      | pinf => exact absurd trivial (by simp [FV.finOrNan] at hm)
      | ninf => exact absurd trivial (by simp [FV.finOrNan] at hm)
  | nan => exact Or.inr (by cases m <;> simp [fsub, fadd, fneg, fdiv])
  | pinf => exact absurd trivial (by simp [FV.finOrNan] at hc)
  | ninf => exact absurd trivial (by simp [FV.finOrNan] at hc)

/-- Claim C8: on every date where each ticker has a finite-or-null non-zero
price and a finite-or-null MA value, the directional compression sum and
the absolute compression sum of `calculate_compressao_dispersao` are finite
and `|Dir| ≤ Abs` (the row sums skip exactly the same null tickers). -/
theorem compression_dir_le_abs (panel : List ((ℕ → FV) × (ℕ → FV))) (t : ℕ)
    (h : ∀ p ∈ panel, (p.1 t).finOrNan ∧ (p.2 t).finOrNan ∧ p.1 t ≠ .fin 0) :
    ∃ d a : ℚ, dirComp panel t = .fin d ∧ absComp panel t = .fin a ∧ |d| ≤ a := by
  induction panel with
  | nil => exact ⟨0, 0, rfl, rfl, by norm_num⟩
  | cons p l ih =>
      obtain ⟨d, a, hd, ha, hle⟩ :=
        ih (fun q hq => h q (List.mem_cons_of_mem _ hq))
      obtain ⟨h1, h2, h3⟩ := h p (List.mem_cons_self _ _)
      rcases compDiff_fin_or_nan (p.1 t) (p.2 t) h1 h2 h3 with ⟨q, hq0⟩ | hq0
      · refine ⟨q + d, |q| + a, ?_, ?_, ?_⟩
        · have hstep : dirComp (p :: l) t = fadd (.fin q) (dirComp l t) := by
            simp [dirComp, rowSumNa, deNan, List.filter_cons, compDiff, hq0,
              FV.isNan, fsum]
          rw [hstep, hd]
          rfl
        · have hstep : absComp (p :: l) t = fadd (.fin |q|) (absComp l t) := by
            simp [absComp, rowSumNa, deNan, List.filter_cons, compDiff, hq0,
              fabs, FV.isNan, fsum]
          rw [hstep, ha]
          rfl
        · calc |q + d| ≤ |q| + |d| := abs_add _ _
            _ ≤ |q| + a := by linarith [hle]
      · refine ⟨d, a, ?_, ?_, hle⟩
        · have hstep : dirComp (p :: l) t = dirComp l t := by
            simp [dirComp, rowSumNa, deNan, List.filter_cons, compDiff, hq0,
              FV.isNan]
          rw [hstep, hd]
        · have hstep : absComp (p :: l) t = absComp l t := by
            simp [absComp, rowSumNa, deNan, List.filter_cons, compDiff, hq0,
              fabs, FV.isNan]
          rw [hstep, ha]

/-- Two-ticker compression panel for the witness: deviations 1/2 and -1/2. -/
def compPanelEx : List ((ℕ → FV) × (ℕ → FV)) :=
  [(fun _ => .fin 10, fun _ => .fin 5), (fun _ => .fin 8, fun _ => .fin 12)]

/-- Witness for `compression_dir_le_abs` at `compPanelEx`. -/
theorem compression_dir_le_abs_witness :
    ∃ d a : ℚ, dirComp compPanelEx 0 = .fin d ∧ absComp compPanelEx 0 = .fin a ∧
      |d| ≤ a := by
  refine compression_dir_le_abs compPanelEx 0 ?_
  intro p hp
  simp only [compPanelEx, List.mem_cons, List.not_mem_nil, or_false] at hp
  rcases hp with rfl | rfl
  · exact ⟨trivial, trivial, by decide⟩
  · exact ⟨trivial, trivial, by decide⟩

/-!  Claim C7: the robust rolling z-score. -/

/-- The `replace([inf,-inf],nan).fillna(0)` stage always yields a finite
value. -/
theorem z1_fin (v : FV) : ∃ q : ℚ, fillna0 (replaceInfNan v) = .fin q := by
  cases v with
  | fin q => exact ⟨q, rfl⟩
  | pinf => exact ⟨0, rfl⟩
  | ninf => exact ⟨0, rfl⟩
  | nan => exact ⟨0, rfl⟩

/-- Clamping to `[-c, c]` bounds the magnitude by `c`. -/
theorem abs_clamp_le (c q : ℚ) (hc : 0 ≤ c) : |max (-c) (min c q)| ≤ c := by
  rw [abs_le]
  constructor
  · exact le_max_left _ _
  · exact max_le (by linarith) (min_le_left _ _)

/-- A zero (or null) rolling MAD nullifies the z-score denominator. -/
theorem zRobustStd_of_mad_zero (s : ℕ → FV) (p : ZParams) (t : ℕ)
    (h : zMad s p t = .fin 0) : zRobustStd s p t = .nan := by
  rw [zRobustStd, h]
  simp [fmul, replace0nan]

/-- Claim C7: for every series and date, `rolling_robust_zscore` (a) always
produces a finite value in every mode (never NaN or inf: infinities and
NaNs are replaced before the `fillna(0)`), (b) is clipped to 3.5 in swing
mode and to 4.0 in longterm mode, (c) yields the neutral 0 whenever the
rolling MAD is zero, and (d) in the unclipped anomalies mode equals the
robust formula `(x - roll_median) / (1.4826 * roll_MAD)` built from the
rolling median and rolling MAD whenever the MAD is finite non-zero. -/
theorem robustZscore_props (s : ℕ → FV) (t : ℕ) :
    (∀ m : ZMode, ∃ q : ℚ, robustZscore s (scoreParams m) t = .fin q) ∧
    (∃ q : ℚ, robustZscore s (scoreParams .swing) t = .fin q ∧ |q| ≤ 7 / 2) ∧
    (∃ q : ℚ, robustZscore s (scoreParams .longterm) t = .fin q ∧ |q| ≤ 4) ∧
    (∀ m : ZMode, zMad s (scoreParams m) t = .fin 0 →
      robustZscore s (scoreParams m) t = .fin 0) ∧
    (∀ x μ d : ℚ, s t = .fin x →
      zRollMedian s (scoreParams .anomalies) t = .fin μ →
      zMad s (scoreParams .anomalies) t = .fin d → d ≠ 0 →
      robustZscore s (scoreParams .anomalies) t =
        .fin ((x - μ) / (madScale * d))) := by
  have hz1 := fun m : ZMode => z1_fin
    (fdiv (fsub (s t) (zRollMedian s (scoreParams m) t))
      (zRobustStd s (scoreParams m) t))
  refine ⟨?_, ?_, ?_, ?_, ?_⟩
  · intro m
    obtain ⟨q, hq⟩ := hz1 m
    cases m with
    | swing => exact ⟨max (-(7 / 2)) (min (7 / 2) q), by
        rw [robustZscore]; rw [hq]; rfl⟩
    | longterm => exact ⟨max (-4) (min 4 q), by
        rw [robustZscore]; rw [hq]; rfl⟩
    | anomalies => exact ⟨q, by rw [robustZscore]; rw [hq]; rfl⟩
  · obtain ⟨q, hq⟩ := hz1 .swing
    exact ⟨max (-(7 / 2)) (min (7 / 2) q), by rw [robustZscore]; rw [hq]; rfl,
      abs_clamp_le _ _ (by norm_num)⟩
  · obtain ⟨q, hq⟩ := hz1 .longterm
    exact ⟨max (-4) (min 4 q), by rw [robustZscore]; rw [hq]; rfl,
      abs_clamp_le _ _ (by norm_num)⟩
  · intro m hm
    have hstd := zRobustStd_of_mad_zero s (scoreParams m) t hm
    have hnan : fillna0 (replaceInfNan
        (fdiv (fsub (s t) (zRollMedian s (scoreParams m) t))
          (zRobustStd s (scoreParams m) t))) = .fin 0 := by
      rw [hstd, fdiv_nan]; rfl
    cases m with
    | swing =>
        rw [robustZscore]; rw [hnan]
        show FV.fin (max (-(7 / 2)) (min (7 / 2) 0)) = .fin 0
        norm_num
    | longterm =>
        rw [robustZscore]; rw [hnan]
        show FV.fin (max (-4) (min 4 0)) = .fin 0
        norm_num
    | anomalies => rw [robustZscore]; rw [hnan]; rfl
  · intro x μ d hx hμ hd hdne
    have hstd : zRobustStd s (scoreParams .anomalies) t =
        .fin (d * madScale) := by
      rw [zRobustStd, hd]
      have : d * madScale ≠ 0 := by
        simp [madScale]
        intro h
        exact hdne h
      simp [fmul, replace0nan, this]
    rw [robustZscore]
    rw [hx, hμ, hstd]
    have harith : fdiv (fsub (.fin x) (.fin μ)) (.fin (d * madScale)) =
        .fin ((x - μ) / (madScale * d)) := by
      have hne : d * madScale ≠ 0 := by
        simp [madScale]
        intro h
        exact hdne h
      rw [show fsub (FV.fin x) (.fin μ) = .fin (x - μ) by
        simp [fsub, fadd, fneg]; ring]
      rw [fdiv_fin_fin_ne _ _ hne, mul_comm]
    rw [harith]
    rfl

/-- Flat witness series for the MAD-zero case. -/
def zsConst : ℕ → FV := fun _ => .fin 1

/-- Linear witness series for the anomalies-formula case. -/
def zsLin : ℕ → FV := fun u => .fin u

/-- Witness for `robustZscore_props`: the flat series has rolling MAD zero
on date 18 in swing mode and z-score 0; the linear series on date 28 in
anomalies mode has rolling median 14 and rolling MAD 21/2, and the z-score
equals the robust formula value. -/
theorem robustZscore_props_witness :
    (zMad zsConst (scoreParams .swing) 18 = .fin 0 ∧
      robustZscore zsConst (scoreParams .swing) 18 = .fin 0) ∧
    (zsLin 28 = .fin 28 ∧
      zRollMedian zsLin (scoreParams .anomalies) 28 = .fin 14 ∧
      zMad zsLin (scoreParams .anomalies) 28 = .fin (21 / 2) ∧ (21 / 2 : ℚ) ≠ 0 ∧
      robustZscore zsLin (scoreParams .anomalies) 28 =
        .fin ((28 - 14) / (madScale * (21 / 2)))) :=
  ⟨⟨by decide, (robustZscore_props zsConst 18).2.2.2.1 .swing (by decide)⟩,
    ⟨by decide, by decide, by decide, by norm_num,
      (robustZscore_props zsLin 28).2.2.2.2 28 14 (21 / 2) (by decide)
        (by decide) (by decide) (by norm_num)⟩⟩

/-!  Claim C9: causality.  Two inputs that agree on all dates up to `t`
produce identical outputs on all dates up to `t`, for every stage of the
pipeline. -/

/-- Agreement of two date series on every date up to `t`. -/
def EqTo (t : ℕ) (f g : ℕ → FV) : Prop := ∀ u, u ≤ t → f u = g u

/-- The clamped trailing window only reads dates up to its end date. -/
theorem winC_eqTo {t : ℕ} {s s' : ℕ → FV} (h : EqTo t s s') (w : ℕ) :
    ∀ u, u ≤ t → winC s w u = winC s' w u := by
  intro u hu
  unfold winC
  apply List.map_congr_left
  intro i hi
  have hin : i < min w (u + 1) := List.mem_range.mp hi
  apply h
  omega

/-- The full trailing window only reads dates up to its end date. -/
theorem rollSum_eqTo {t : ℕ} {s s' : ℕ → FV} (h : EqTo t s s') (w : ℕ) :
    EqTo t (rollSum s w) (rollSum s' w) := by
  intro u hu
  unfold rollSum
  split
  · rfl
  · next hnot =>
      congr 1
      unfold win
      apply List.map_congr_left
      intro i hi
      have hin : i < w := List.mem_range.mp hi
      apply h
      omega

/-- Rolling means are causal. -/
theorem rollMean_eqTo {t : ℕ} {s s' : ℕ → FV} (h : EqTo t s s') (w : ℕ) :
    EqTo t (rollMean s w) (rollMean s' w) := by
  intro u hu
  unfold rollMean
  rw [rollSum_eqTo h w u hu]

/-- Rolling minima (`min_periods=1`) are causal. -/
theorem rollMin1_eqTo {t : ℕ} {s s' : ℕ → FV} (h : EqTo t s s') (w : ℕ) :
    EqTo t (rollMin1 s w) (rollMin1 s' w) := by
  intro u hu
  unfold rollMin1
  rw [winC_eqTo h w u hu]

/-- Rolling maxima (`min_periods=1`) are causal. -/
theorem rollMax1_eqTo {t : ℕ} {s s' : ℕ → FV} (h : EqTo t s s') (w : ℕ) :
    EqTo t (rollMax1 s w) (rollMax1 s' w) := by
  intro u hu
  unfold rollMax1
  rw [winC_eqTo h w u hu]

/-- Rolling means with `min_periods=1` are causal. -/
theorem rollMean1_eqTo {t : ℕ} {s s' : ℕ → FV} (h : EqTo t s s') (w : ℕ) :
    EqTo t (rollMean1 s w) (rollMean1 s' w) := by
  intro u hu
  unfold rollMean1
  rw [winC_eqTo h w u hu]

/-- Rolling medians are causal. -/
theorem rollMedian_eqTo {t : ℕ} {s s' : ℕ → FV} (h : EqTo t s s') (w m : ℕ) :
    EqTo t (rollMedian s w m) (rollMedian s' w m) := by
  intro u hu
  unfold rollMedian
  rw [winC_eqTo h w u hu]

/-- Moving averages are causal. -/
theorem maSeries_eqTo {t : ℕ} {c c' : ℕ → FV} (h : EqTo t c c') (w : ℕ) :
    EqTo t (maSeries c w) (maSeries c' w) := rollMean_eqTo h w

/-- Volume-weighted moving averages are causal. -/
theorem vwmaSeries_eqTo {t : ℕ} {c c' v v' : ℕ → FV} (hc : EqTo t c c')
    (hv : EqTo t v v') (w : ℕ) : EqTo t (vwmaSeries c v w) (vwmaSeries c' v' w) := by
  intro u hu
  unfold vwmaSeries
  have hp : EqTo t (fun x => fmul (c x) (v x)) (fun x => fmul (c' x) (v' x)) := by
    intro x hx
    show fmul (c x) (v x) = fmul (c' x) (v' x)
    rw [hc x hx, hv x hx]
  rw [rollSum_eqTo hp w u hu, rollSum_eqTo hv w u hu]

/-- Count congruence along a pointwise relation between two panels. -/
theorem countP_forall₂ {α β : Type} {R : α → β → Prop} {l : List α}
    {l' : List β} (h : List.Forall₂ R l l') (p : α → Bool) (q : β → Bool)
    (hpq : ∀ a b, R a b → p a = q b) : l.countP p = l'.countP q := by
  induction h with
  | nil => rfl
  | cons hr _ ih =>
      rw [List.countP_cons, List.countP_cons, ih, hpq _ _ hr]

/-- Map congruence along a pointwise relation between two panels. -/
theorem map_forall₂ {α β γ : Type} {R : α → β → Prop} {l : List α}
    {l' : List β} (h : List.Forall₂ R l l') (f : α → γ) (g : β → γ)
    (hfg : ∀ a b, R a b → f a = g b) : l.map f = l'.map g := by
  induction h with
  | nil => rfl
  | cons hr _ ih => rw [List.map_cons, List.map_cons, ih, hfg _ _ hr]

/-!  The composed pipeline stages, as the source composes them. -/

/-- Pointwise agreement (close and volume) of two ticker panels up to `t`. -/
def PanelEqTo (t : ℕ) (panel panel' : List ((ℕ → FV) × (ℕ → FV))) : Prop :=
  List.Forall₂ (fun p q => EqTo t p.1 q.1 ∧ EqTo t p.2 q.2) panel panel'

/-- The breadth input for window `w`: each ticker keeps its price column and
gains its `MA{w}` column from `calculate_mas`. -/
def breadthPanel (panel : List ((ℕ → FV) × (ℕ → FV))) (w : ℕ) :
    List ((ℕ → FV) × (ℕ → FV)) :=
  panel.map (fun p => (p.1, maSeries p.1 w))

/-- The smoothed `%>MA{w}` pipeline output. -/
def pipePctAbove (panel : List ((ℕ → FV) × (ℕ → FV))) (w : ℕ) (band : ℚ)
    (numTickers sw : ℕ) : ℕ → FV :=
  pctAboveOut (breadthPanel panel w) band numTickers sw

/-- The ladder percentage pipeline output for the chain `w0 :: chain` at a
date: prices and VWMA values are read off the ticker panel. -/
def pipeLadderPct (panel : List ((ℕ → FV) × (ℕ → FV))) (w0 : ℕ)
    (chain : List ℕ) (u : ℕ) : FV :=
  ladderPct panel (fun p => p.1 u) (fun p => vwmaSeries p.1 p.2 w0 u)
    (chain.map (fun w p => vwmaSeries p.1 p.2 w u))

/-- The absolute compression pipeline output for window `w`. -/
def pipeAbsComp (panel : List ((ℕ → FV) × (ℕ → FV))) (w u : ℕ) : FV :=
  absComp (breadthPanel panel w) u

/-- The directional compression pipeline output for window `w`. -/
def pipeDirComp (panel : List ((ℕ → FV) × (ℕ → FV))) (w u : ℕ) : FV :=
  dirComp (breadthPanel panel w) u

/-- `MA_max` over the MA columns of the windows `ws` (`max(axis=1)` skips
null cells). -/
def maxOverMAs (close : ℕ → FV) (ws : List ℕ) (u : ℕ) : FV :=
  fmaxList (deNan (ws.map (fun w => maSeries close w u)))

/-- `MA_min` over the MA columns of the windows `ws`. -/
def minOverMAs (close : ℕ → FV) (ws : List ℕ) (u : ℕ) : FV :=
  fminList (deNan (ws.map (fun w => maSeries close w u)))

/-- `MA_range_pct = (MA_max - MA_min) / (price + eps)`. -/
def maRangePct (close : ℕ → FV) (ws : List ℕ) (u : ℕ) : FV :=
  fdiv (fsub (maxOverMAs close ws u) (minOverMAs close ws u))
    (fadd (close u) (.fin epsB))

/-- The minmax-oscillator pipeline output over the MA range of `ws`. -/
def pipeMinmaxOsc (close : ℕ → FV) (ws : List ℕ) (L u : ℕ) : FV :=
  minmaxOsc (maRangePct close ws) L u

/-- The zscore-oscillator pipeline output over the MA range of `ws`. -/
def pipeZscoreOsc (close : ℕ → FV) (ws : List ℕ) (m : ZMode) (u : ℕ) : FV :=
  robustZscore (maRangePct close ws) (scoreParams m) u

/-- The MA range series is causal. -/
theorem maRangePct_eqTo {t : ℕ} {c c' : ℕ → FV} (h : EqTo t c c')
    (ws : List ℕ) : EqTo t (maRangePct c ws) (maRangePct c' ws) := by
  intro u hu
  unfold maRangePct maxOverMAs minOverMAs
  have hmap : ws.map (fun w => maSeries c w u) =
      ws.map (fun w => maSeries c' w u) := by
    apply List.map_congr_left
    intro w _
    exact maSeries_eqTo h w u hu
  rw [hmap, h u hu]

/-- The robust z-score is causal. -/
theorem robustZscore_eqTo {t : ℕ} {s s' : ℕ → FV} (h : EqTo t s s')
    (p : ZParams) : ∀ u, u ≤ t →
      robustZscore s p u = robustZscore s' p u := by
  intro u hu
  have hmed : EqTo t (zRollMedian s p) (zRollMedian s' p) :=
    rollMedian_eqTo h p.window p.minPeriods
  have hdev : EqTo t (fun v => fabs (fsub (s v) (zRollMedian s p v)))
      (fun v => fabs (fsub (s' v) (zRollMedian s' p v))) := by
    intro v hv
    show fabs (fsub (s v) (zRollMedian s p v)) =
      fabs (fsub (s' v) (zRollMedian s' p v))
    rw [h v hv, hmed v hv]
  have hmad : zMad s p u = zMad s' p u :=
    rollMedian_eqTo hdev p.window p.minPeriods u hu
  unfold robustZscore
  rw [h u hu, hmed u hu]
  unfold zRobustStd
  rw [hmad]

/-- Attaching MA columns preserves panel agreement up to `t`. -/
theorem breadthPanel_eqTo {t : ℕ} {panel panel' : List ((ℕ → FV) × (ℕ → FV))}
    (hP : PanelEqTo t panel panel') (w : ℕ) :
    PanelEqTo t (breadthPanel panel w) (breadthPanel panel' w) := by
  induction hP with
  | nil => exact List.Forall₂.nil
  | cons hr _ ih =>
      exact List.Forall₂.cons ⟨hr.1, maSeries_eqTo hr.1 w⟩ ih

/-- Breadth counts are causal. -/
theorem numAbove_eqTo {t : ℕ} {P P' : List ((ℕ → FV) × (ℕ → FV))}
    (hP : PanelEqTo t P P') (band : ℚ) :
    ∀ u, u ≤ t → numAbove P band u = numAbove P' band u := by
  intro u hu
  apply countP_forall₂ hP
  intro a b hr
  unfold pctDiff
  rw [hr.1 u hu, hr.2 u hu]

/-- Raw breadth percentages are causal. -/
theorem rawPctAbove_eqTo {t : ℕ} {P P' : List ((ℕ → FV) × (ℕ → FV))}
    (hP : PanelEqTo t P P') (band : ℚ) (N : ℕ) :
    EqTo t (rawPctAbove P band N) (rawPctAbove P' band N) := by
  intro u hu
  unfold rawPctAbove
  rw [numAbove_eqTo hP band u hu]

/-- Smoothed breadth percentages are causal. -/
theorem pctAboveOut_eqTo {t : ℕ} {P P' : List ((ℕ → FV) × (ℕ → FV))}
    (hP : PanelEqTo t P P') (band : ℚ) (N sw : ℕ) :
    ∀ u, u ≤ t → pctAboveOut P band N sw u = pctAboveOut P' band N sw u := by
  intro u hu
  unfold pctAboveOut smoothIf
  split
  · exact rollMean1_eqTo (rawPctAbove_eqTo hP band N) sw u hu
  · exact rawPctAbove_eqTo hP band N u hu

/-- Compression row sums are causal. -/
theorem absComp_eqTo {t : ℕ} {P P' : List ((ℕ → FV) × (ℕ → FV))}
    (hP : PanelEqTo t P P') : ∀ u, u ≤ t → absComp P u = absComp P' u := by
  intro u hu
  unfold absComp rowSumNa
  congr 1
  congr 1
  apply map_forall₂ hP
  intro a b hr
  unfold compDiff
  rw [hr.1 u hu, hr.2 u hu]

/-- Directional compression row sums are causal. -/
theorem dirComp_eqTo {t : ℕ} {P P' : List ((ℕ → FV) × (ℕ → FV))}
    (hP : PanelEqTo t P P') : ∀ u, u ≤ t → dirComp P u = dirComp P' u := by
  intro u hu
  unfold dirComp rowSumNa
  congr 1
  congr 1
  apply map_forall₂ hP
  intro a b hr
  unfold compDiff
  rw [hr.1 u hu, hr.2 u hu]

/-- The minmax oscillator is causal in its input series. -/
theorem minmaxOsc_eqTo {t : ℕ} {x x' : ℕ → FV} (hx : EqTo t x x') (L : ℕ) :
    ∀ u, u ≤ t → minmaxOsc x L u = minmaxOsc x' L u := by
  intro u hu
  simp only [minmaxOsc]
  rw [rollMin1_eqTo hx L u hu, rollMax1_eqTo hx L u hu, hx u hu]

/-- Ladder percentages are causal. -/
theorem pipeLadderPct_eqTo {t : ℕ} {panel panel' : List ((ℕ → FV) × (ℕ → FV))}
    (hP : PanelEqTo t panel panel') (w0 : ℕ) (chain : List ℕ) :
    ∀ u, u ≤ t → pipeLadderPct panel w0 chain u = pipeLadderPct panel' w0 chain u := by
  intro u hu
  unfold pipeLadderPct ladderPct
  have hlen : panel.length = panel'.length := hP.length_eq
  have hcnt : ladderCount panel (fun p => p.1 u)
      (fun p => vwmaSeries p.1 p.2 w0 u)
      (chain.map (fun w p => vwmaSeries p.1 p.2 w u)) =
      ladderCount panel' (fun p => p.1 u)
      (fun p => vwmaSeries p.1 p.2 w0 u)
      (chain.map (fun w p => vwmaSeries p.1 p.2 w u)) := by
    apply countP_forall₂ hP
    intro a b hr
    have h1 : a.1 u = b.1 u := hr.1 u hu
    have h0 : vwmaSeries a.1 a.2 w0 u = vwmaSeries b.1 b.2 w0 u :=
      vwmaSeries_eqTo hr.1 hr.2 w0 u hu
    have hmap : (chain.map (fun w p => vwmaSeries p.1 p.2 w u)).map
        (fun v => v a) = (chain.map (fun w p => vwmaSeries p.1 p.2 w u)).map
        (fun v => v b) := by
      rw [List.map_map, List.map_map]
      apply List.map_congr_left
      intro w _
      exact vwmaSeries_eqTo hr.1 hr.2 w u hu
    show strictLadder (a.1 u) (vwmaSeries a.1 a.2 w0 u)
        ((chain.map (fun w p => vwmaSeries p.1 p.2 w u)).map (fun v => v a)) =
      strictLadder (b.1 u) (vwmaSeries b.1 b.2 w0 u)
        ((chain.map (fun w p => vwmaSeries p.1 p.2 w u)).map (fun v => v b))
    rw [h1, h0, hmap]
  rw [hcnt, hlen]

/-- Claim C9: every pipeline output at date `u ≤ t` is unchanged when the
inputs are replaced by any inputs that agree on all dates up to `t` (in
particular, by the inputs truncated at `t`): moving averages, VWMAs,
breadth counts and smoothed percentages, ladder percentages, compression
aggregates, and both oscillator modes read no row after their date. -/
theorem pipeline_causal (cI cI' : ℕ → FV) (vI vI' : ℕ → FV)
    (panel panel' : List ((ℕ → FV) × (ℕ → FV))) (t : ℕ)
    (w w0 : ℕ) (ws chain : List ℕ) (band : ℚ) (N sw L : ℕ) (m : ZMode)
    (hI : EqTo t cI cI') (hV : EqTo t vI vI')
    (hP : PanelEqTo t panel panel') (u : ℕ) (hu : u ≤ t) :
    maSeries cI w u = maSeries cI' w u ∧
    vwmaSeries cI vI w u = vwmaSeries cI' vI' w u ∧
    numAbove (breadthPanel panel w) band u =
      numAbove (breadthPanel panel' w) band u ∧
    pipePctAbove panel w band N sw u = pipePctAbove panel' w band N sw u ∧
    pipeLadderPct panel w0 chain u = pipeLadderPct panel' w0 chain u ∧
    pipeAbsComp panel w u = pipeAbsComp panel' w u ∧
    pipeDirComp panel w u = pipeDirComp panel' w u ∧
    pipeMinmaxOsc cI ws L u = pipeMinmaxOsc cI' ws L u ∧
    pipeZscoreOsc cI ws m u = pipeZscoreOsc cI' ws m u := by
  have hBP := breadthPanel_eqTo hP w
  refine ⟨maSeries_eqTo hI w u hu, vwmaSeries_eqTo hI hV w u hu,
    numAbove_eqTo hBP band u hu, pctAboveOut_eqTo hBP band N sw u hu,
    pipeLadderPct_eqTo hP w0 chain u hu, absComp_eqTo hBP u hu,
    dirComp_eqTo hBP u hu, ?_, ?_⟩
  · exact minmaxOsc_eqTo (maRangePct_eqTo hI ws) L u hu
  · exact robustZscore_eqTo (maRangePct_eqTo hI ws) (scoreParams m) u hu

/-- Index close for the causality witness: agrees with the constant 10
series up to date 1, diverges later. -/
def cIEx : ℕ → FV := fun u => if u ≤ 1 then .fin 10 else .fin 99

/-- One-ticker panel for the causality witness, price diverging after
date 1. -/
def panelCEx : List ((ℕ → FV) × (ℕ → FV)) :=
  [(fun u => if u ≤ 1 then .fin 20 else .fin 7, fun _ => .fin 1)]

/-- The same panel with the divergent tail removed. -/
def panelCEx' : List ((ℕ → FV) × (ℕ → FV)) :=
  [(fun _ => .fin 20, fun _ => .fin 1)]

/-- Witness for `pipeline_causal`: truncating the inputs at date 1 leaves
every output at date 1 unchanged. -/
theorem pipeline_causal_witness :
    EqTo 1 cIEx (fun _ => .fin 10) ∧ EqTo 1 (fun _ => .fin 2) (fun _ => .fin 2) ∧
    PanelEqTo 1 panelCEx panelCEx' ∧
    (maSeries cIEx 2 1 = maSeries (fun _ => .fin 10) 2 1 ∧
     vwmaSeries cIEx (fun _ => .fin 2) 2 1 =
       vwmaSeries (fun _ => .fin 10) (fun _ => .fin 2) 2 1 ∧
     numAbove (breadthPanel panelCEx 2) (1 / 200) 1 =
       numAbove (breadthPanel panelCEx' 2) (1 / 200) 1 ∧
     pipePctAbove panelCEx 2 (1 / 200) 1 3 1 =
       pipePctAbove panelCEx' 2 (1 / 200) 1 3 1 ∧
     pipeLadderPct panelCEx 2 [5] 1 = pipeLadderPct panelCEx' 2 [5] 1 ∧
     pipeAbsComp panelCEx 2 1 = pipeAbsComp panelCEx' 2 1 ∧
     pipeDirComp panelCEx 2 1 = pipeDirComp panelCEx' 2 1 ∧
     pipeMinmaxOsc cIEx [2, 5] 4 1 = pipeMinmaxOsc (fun _ => .fin 10) [2, 5] 4 1 ∧
     pipeZscoreOsc cIEx [2, 5] .swing 1 =
       pipeZscoreOsc (fun _ => .fin 10) [2, 5] .swing 1) := by
  have hI : EqTo 1 cIEx (fun _ => .fin 10) := by
    intro u hu
    simp [cIEx, hu]
  have hV : EqTo 1 (fun _ => .fin 2) (fun _ => .fin 2) := fun _ _ => rfl
  have hP : PanelEqTo 1 panelCEx panelCEx' := by
    refine List.Forall₂.cons ⟨?_, ?_⟩ List.Forall₂.nil
    · intro u hu
      simp [hu]
    · intro u hu
      rfl
  exact ⟨hI, hV, hP, pipeline_causal cIEx (fun _ => .fin 10) (fun _ => .fin 2)
    (fun _ => .fin 2) panelCEx panelCEx' 1 2 2 [2, 5] [5] (1 / 200) 1 3 4
    .swing hI hV hP 1 (le_refl 1)⟩

end Breadth
